import Mathlib

/-!
Verification of libsdlog's message-format model, record encoder and writer
state machine, shallowly embedded from the C sources (src/src/core/model.c,
src/src/core/encoder.c, src/src/core/writer.c, src/src/error.c).  Strings are
modelled as lists of characters (C strings contain no NUL), buffers as lists of
byte values (Nat, reduced mod 256 where the C code stores into uint8), and
size_t arithmetic is made explicit mod 2^64 where wrap-around matters.
-/

namespace Sdlog

/-- Error codes of sdlog_error_t (include/sdlog/error.h, current revision with
the trailing EOF member). -/
inductive SdErr where
  | success
  | failure
  | enomem
  | einval
  | elimit
  | eread
  | ewrite
  | eio
  | unimplemented
  | eof
deriving DecidableEq, Repr

/-- Numeric value of each enumerator (SUCCESS = 0 through EOF = 9). -/
def SdErr.toCode : SdErr → Int
  | .success => 0
  | .failure => 1
  | .enomem => 2
  | .einval => 3
  | .elimit => 4
  | .eread => 5
  | .ewrite => 6
  | .eio => 7
  | .unimplemented => 8
  | .eof => 9

/-- The static message table sdlog_i_error_messages of src/error.c (current
ten-entry revision). -/
def sdlog_i_error_messages : List String :=
  [ "No error"
  , "Unspecified failure"
  , "Not enough memory"
  , "Invalid value"
  , "Limit exceeded"
  , "Read error"
  , "Write error"
  , "Generic I/O error"
  , "Unimplemented function call"
  , "End of file" ]

/-- sdlog_error_to_string from src/error.c: in-range codes index the table,
everything else falls back to the message at index SDLOG_FAILURE = 1. -/
def sdlog_error_to_string (code : Int) : String :=
  if 0 ≤ code ∧ code < 10 then sdlog_i_error_messages.getD code.toNat ""
  else sdlog_i_error_messages.getD 1 ""

/-- The message each enumerator is documented to carry (the table rows paired
with the enum, spelled out per enumerator). -/
def SdErr.message : SdErr → String
  | .success => "No error"
  | .failure => "Unspecified failure"
  | .enomem => "Not enough memory"
  | .einval => "Invalid value"
  | .elimit => "Limit exceeded"
  | .eread => "Read error"
  | .ewrite => "Write error"
  | .eio => "Generic I/O error"
  | .unimplemented => "Unimplemented function call"
  | .eof => "End of file"

/-- get_size_of_column_type from src/core/model.c: wire size in bytes of each
single-character column type code, 0 for unknown codes. -/
def get_size_of_column_type (type : Char) : Nat :=
  if type = 'b' ∨ type = 'B' ∨ type = 'M' then 1
  else if type = 'c' ∨ type = 'C' ∨ type = 'h' ∨ type = 'H' then 2
  else if type = 'e' ∨ type = 'E' ∨ type = 'f' ∨ type = 'i' ∨ type = 'I' ∨
          type = 'L' ∨ type = 'n' then 4
  else if type = 'd' ∨ type = 'q' ∨ type = 'Q' then 8
  else if type = 'N' then 16
  else if type = 'a' ∨ type = 'Z' then 64
  else 0

/-- sdlog_message_column_format_t: one named, typed, unit-tagged column. -/
structure ColumnFormat where
  name : List Char
  type : Char
  unit : Char
deriving DecidableEq, Repr

/-- sdlog_message_format_t: numeric id, short type name, the column list and
the current allocation capacity of the columns array.  num_columns of the C
struct is columns.length here. -/
structure MessageFormat where
  id : Nat
  type : List Char
  num_alloc_columns : Nat
  columns : List ColumnFormat
deriving DecidableEq, Repr

instance : Inhabited MessageFormat := ⟨⟨0, [], 0, []⟩⟩

/-- SDLOG_MAX_MESSAGE_TYPE_LENGTH from include/sdlog/model.h. -/
def SDLOG_MAX_MESSAGE_TYPE_LENGTH : Nat := 4

/-- sdlog_message_format_init from src/core/model.c, as a state transformer on
the struct being initialised: the length check precedes every write, so on
EINVAL the passed object comes back untouched.  The id parameter is narrowed
to uint8 as in the C prototype. -/
def sdlog_message_format_init (old : MessageFormat) (id : Nat) (type : List Char) :
    SdErr × MessageFormat :=
  if type.length > SDLOG_MAX_MESSAGE_TYPE_LENGTH then (.einval, old)
  else (.success, { id := id % 256, type := type, num_alloc_columns := 4, columns := [] })

/-- sdlog_message_format_get_size from src/core/model.c (uint16_t result). -/
def sdlog_message_format_get_size (f : MessageFormat) : Nat :=
  ((f.columns.map (fun c => get_size_of_column_type c.type)).sum) % 65536

/-- sdlog_message_format_get_format_string: the column type codes in order. -/
def sdlog_message_format_get_format_string (f : MessageFormat) : List Char :=
  f.columns.map (fun c => c.type)

/-- Content of the string built by sdlog_message_format_get_column_names: the
first name plain, every further name preceded by the separator (the loop
writes sep only for i > 0). -/
def sdlog_message_format_get_column_names (f : MessageFormat) (sep : List Char) :
    List Char :=
  match f.columns.map (fun c => c.name) with
  | [] => []
  | n :: rest => n ++ (rest.map (fun m => sep ++ m)).flatten

/-- 2^64, the modulus of size_t arithmetic on the reference platform. -/
def SIZE_T_MOD : Nat := 18446744073709551616

/-- The bytes_needed computation of sdlog_message_format_get_column_names,
with the size_t wrap-around of num_columns - 1 made explicit: bytes_needed =
sum of name lengths + sep_length * (num_columns - 1) + 1, all in size_t. -/
def column_names_bytes_needed (f : MessageFormat) (sep : List Char) : Nat :=
  ((f.columns.map (fun c => c.name.length)).sum
    + sep.length * ((f.columns.length + (SIZE_T_MOD - 1)) % SIZE_T_MOD) + 1) % SIZE_T_MOD

/-- The capacity growth expression of sdlog_message_format_add_column:
doubling below 32, +16 steps afterwards. -/
def grow_capacity (cap : Nat) : Nat :=
  if cap < 32 then cap * 2 else cap + 16

/-- sdlog_message_format_add_column from src/core/model.c.  Check order as in
the source: full count first (ELIMIT), then type validity (EINVAL), then the
capacity growth with its 255 cap (ELIMIT), then the append.  Allocation
failures are not modelled. -/
def sdlog_message_format_add_column (f : MessageFormat) (name : List Char)
    (type unit : Char) : SdErr × MessageFormat :=
  if f.columns.length = 255 then (.elimit, f)
  else if get_size_of_column_type type = 0 then (.einval, f)
  else if f.columns.length = f.num_alloc_columns then
    if grow_capacity f.num_alloc_columns > 255 then (.elimit, f)
    else (.success, { f with num_alloc_columns := grow_capacity f.num_alloc_columns,
                             columns := f.columns ++ [⟨name, type, unit⟩] })
  else (.success, { f with columns := f.columns ++ [⟨name, type, unit⟩] })

/-- One round of the name scanner of sdlog_message_format_add_columns: the
piece before the first comma.  When no comma is left the scan latch leaves the
cursor on the terminator, so every later round sees the empty string. -/
def nameAfterComma (names : List Char) : List Char :=
  match names.dropWhile (fun c => c ≠ ',') with
  | [] => []
  | _ :: rest => rest

/-- The loop of sdlog_message_format_add_columns from src/core/model.c, one
iteration per character of types: take the piece of names before the next
comma, take the next unit character (or '-' once units is exhausted), append
via sdlog_message_format_add_column, stop on the first error. -/
def add_columns_go (f : MessageFormat) (names : List Char) :
    List Char → List Char → SdErr × MessageFormat
  | [], _ => (.success, f)
  | t :: ts, units =>
    let name := names.takeWhile (fun c => c ≠ ',')
    let unit := units.headD '-'
    match sdlog_message_format_add_column f name t unit with
    | (.success, f') => add_columns_go f' (nameAfterComma names) ts units.tail
    | (e, f') => (e, f')

/-- sdlog_message_format_add_columns from src/core/model.c: the up-front
ELIMIT check (max_available = 255 - count), then the per-type loop. -/
def sdlog_message_format_add_columns (f : MessageFormat)
    (names types units : List Char) : SdErr × MessageFormat :=
  if 255 - f.columns.length < types.length then (.elimit, f)
  else add_columns_go f names types units

/-! The record encoder (src/core/encoder.c). -/

/-- A value handed to the variadic encoder.  Integer columns consume an
integer; float and double columns consume the IEEE-754 bit pattern of the
caller's (already narrowed) value, matching the union reinterpretation in the
source; string columns consume a string. -/
inductive Value where
  | int (v : Int)
  | f32 (bits : Nat)
  | f64 (bits : Nat)
  | str (s : List Char)
deriving DecidableEq, Repr

/-- Byte value of a character stored into a C char. -/
def charToByte (c : Char) : Nat := c.toNat % 256

/-- Modelled from the spec: store16_to_LE of endianness.h (the header is not
part of the sources here); multi-byte scalars are stored little-endian. -/
def store16_to_LE (v : Nat) : List Nat :=
  [v % 256, v / 256 % 256]

/-- Modelled from the spec: store32_to_LE of endianness.h, little-endian. -/
def store32_to_LE (v : Nat) : List Nat :=
  [v % 256, v / 256 % 256, v / 65536 % 256, v / 16777216 % 256]

/-- Modelled from the spec: store64_to_LE of endianness.h, little-endian. -/
def store64_to_LE (v : Nat) : List Nat :=
  [ v % 256, v / 256 % 256, v / 65536 % 256, v / 16777216 % 256
  , v / 4294967296 % 256, v / 1099511627776 % 256
  , v / 281474976710656 % 256, v / 72057594037927936 % 256 ]

/-- The fixed-width, zero-padded string field written by the n/N/Z cases of
the encoder: memset to zero, then strncpy with truncation at the width. -/
def strField (width : Nat) (s : List Char) : List Nat :=
  (s.map charToByte).take width ++ List.replicate (width - s.length) 0

/-- The va_arg of an integer column; a value of any other kind is undefined
behaviour of the variadic source, modelled as a generic failure. -/
def Value.intArg : Value → Except SdErr Int
  | .int n => .ok n
  | _ => .error .failure

/-- The va_arg of an 'f' column: the bit pattern of the narrowed float. -/
def Value.f32Arg : Value → Except SdErr Nat
  | .f32 bits => .ok bits
  | _ => .error .failure

/-- The va_arg of a 'd' column: the bit pattern of the double. -/
def Value.f64Arg : Value → Except SdErr Nat
  | .f64 bits => .ok bits
  | _ => .error .failure

/-- The va_arg of a string column. -/
def Value.strArg : Value → Except SdErr (List Char)
  | .str s => .ok s
  | _ => .error .failure

/-- One arm of the switch of sdlog_message_format_encode_va: the bytes one
column contributes.  Type 'a' is UNIMPLEMENTED and unknown codes are EINVAL,
as in the source. -/
def encode_column (type : Char) (v : Value) : Except SdErr (List Nat) :=
  if type = 'b' ∨ type = 'B' ∨ type = 'M' then
    (Value.intArg v).map fun n => [(n % 256).toNat]
  else if type = 'c' ∨ type = 'C' ∨ type = 'h' ∨ type = 'H' then
    (Value.intArg v).map fun n => store16_to_LE (n % 65536).toNat
  else if type = 'e' ∨ type = 'E' ∨ type = 'L' ∨ type = 'i' ∨ type = 'I' then
    (Value.intArg v).map fun n => store32_to_LE (n % 4294967296).toNat
  else if type = 'q' ∨ type = 'Q' then
    (Value.intArg v).map fun n => store64_to_LE (n % 18446744073709551616).toNat
  else if type = 'f' then
    (Value.f32Arg v).map fun bits => store32_to_LE (bits % 4294967296)
  else if type = 'd' then
    (Value.f64Arg v).map fun bits => store64_to_LE (bits % 18446744073709551616)
  else if type = 'n' ∨ type = 'N' ∨ type = 'Z' then
    (Value.strArg v).map fun s =>
      strField (if type = 'Z' then 64 else if type = 'N' then 16 else 4) s
  else if type = 'a' then .error .unimplemented
  else .error .einval

/-- The column loop of sdlog_message_format_encode_va: one chunk of bytes per
column, consuming one value per column in order.  Running out of values reads
an indeterminate va_arg in C; modelled as a generic failure. -/
def encode_columns : List ColumnFormat → List Value → Except SdErr (List (List Nat))
  | [], _ => .ok []
  | _ :: _, [] => .error .failure
  | c :: cs, v :: vs => do
    let b ← encode_column c.type v
    let rest ← encode_columns cs vs
    .ok (b :: rest)

/-- sdlog_message_format_encode_va from src/core/encoder.c: the two sync bytes
and the id, then the per-column chunks; on success, written is the number of
bytes produced. -/
def sdlog_message_format_encode_va (f : MessageFormat) (vs : List Value) :
    Except SdErr (List Nat × Nat) :=
  match encode_columns f.columns vs with
  | .error e => .error e
  | .ok chunks =>
    let bytes := 0xA3 :: 0x95 :: f.id % 256 :: chunks.flatten
    .ok (bytes, bytes.length)

/-! The writer state machine (src/core/writer.c).  Caller-built message
format objects are referred to by pointer; a pointer is modelled as a Nat and
an environment heap maps each pointer to the message id of the format object
it designates.  The bytes that reach the output stream are abstracted to an
event trace: one event per record handed to sdlog_ostream_write_all, plus the
session bracket calls. -/

/-- One observable interaction of the writer with its output stream. -/
inductive WEvent where
  | beginSession
  | endSession
  | fmtRec (p : Nat)
  | dataRec (p : Nat)
deriving DecidableEq, Repr

/-- The mutable state of sdlog_writer_t that the claims concern: the
has_session flag and the formats array (message id to the pointer last
announced under that id, NULL when none). -/
structure WriterState where
  hasSession : Bool
  announced : Nat → Option Nat

/-- The state after sdlog_writer_init: memset to zero, so no session and an
all-NULL formats array. -/
def emptyWriter : WriterState := ⟨false, fun _ => none⟩

/-- ensure_session_started from src/core/writer.c. -/
def ensure_session_started (st : WriterState) : WriterState × List WEvent :=
  if st.hasSession then (st, [])
  else ({ st with hasSession := true }, [.beginSession])

/-- write_format_if_needed from src/core/writer.c.  fmtRes is the outcome of
the attempt to put the FMT record on the stream.  The source stores the
pointer into the formats array unconditionally, also when write_format just
failed; only a successful write contributes the FMT record event. -/
def write_format_if_needed (heap : Nat → Nat) (st : WriterState) (p : Nat)
    (fmtRes : SdErr) : SdErr × WriterState × List WEvent :=
  if st.announced (heap p) = some p then (.success, st, [])
  else
    (fmtRes,
     { st with announced := fun i => if i = heap p then some p else st.announced i },
     if fmtRes = .success then [.fmtRec p] else [])

/-- sdlog_writer_write_va from src/core/writer.c: ensure the session, announce
the format if needed (propagating its error), then write the data record. -/
def sdlog_writer_write_model (heap : Nat → Nat) (st : WriterState) (p : Nat)
    (fmtRes : SdErr) : SdErr × WriterState × List WEvent :=
  let s1 := ensure_session_started st
  let r := write_format_if_needed heap s1.1 p fmtRes
  if r.1 = .success then (.success, r.2.1, s1.2 ++ r.2.2 ++ [.dataRec p])
  else (r.1, r.2.1, s1.2 ++ r.2.2)

/-- sdlog_writer_end from src/core/writer.c: flush and end the stream session
and clear has_session; the formats array is left as it is. -/
def sdlog_writer_end_model (st : WriterState) : WriterState × List WEvent :=
  if st.hasSession then ({ st with hasSession := false }, [.endSession])
  else (st, [])

/-- A run of successful sdlog_writer_write calls, one per pointer in the list. -/
def runW (heap : Nat → Nat) (st : WriterState) : List Nat → WriterState × List WEvent
  | [] => (st, [])
  | p :: ps =>
    let r := sdlog_writer_write_model heap st p .success
    let rest := runW heap r.2.1 ps
    (rest.1, r.2.2 ++ rest.2)

/-- A writer API call: a write (with the outcome the stream will give the FMT
record, success when no failure is injected) or sdlog_writer_end. -/
inductive WOp where
  | write (p : Nat) (fmtRes : SdErr)
  | endOp
deriving DecidableEq, Repr

/-- Run a list of writer calls, collecting the event trace and the return
code of every call. -/
def runOps (heap : Nat → Nat) (st : WriterState) :
    List WOp → WriterState × List WEvent × List SdErr
  | [] => (st, [], [])
  | .write p e :: ops =>
    let r := sdlog_writer_write_model heap st p e
    let rest := runOps heap r.2.1 ops
    (rest.1, r.2.2 ++ rest.2.1, r.1 :: rest.2.2)
  | .endOp :: ops =>
    let r := sdlog_writer_end_model st
    let rest := runOps heap r.1 ops
    (rest.1, r.2 ++ rest.2.1, .success :: rest.2.2)

/-- The data-record subsequence of an event trace. -/
def dataOf (evs : List WEvent) : List Nat :=
  evs.filterMap (fun e => match e with | .dataRec p => some p | _ => none)

/-- Distinct format objects used in a trace carry pairwise distinct ids. -/
def distinctIds (heap : Nat → Nat) (ps : List Nat) : Prop :=
  ∀ p ∈ ps, ∀ q ∈ ps, heap p = heap q → p = q

instance (heap : Nat → Nat) (ps : List Nat) : Decidable (distinctIds heap ps) := by
  unfold distinctIds; infer_instance

/-! The FMT meta-format and write_format (src/core/writer.c). -/

/-- The private FMT message format built by sdlog_writer_init: id
SDLOG_ID_FMT = 128, type "FMT", columns Type,Length,Name,Format,Columns of
types BBnNZ with unit '-'. -/
def fmt_message_format : MessageFormat :=
  (sdlog_message_format_add_columns
    (sdlog_message_format_init default 128 "FMT".toList).2
    "Type,Length,Name,Format,Columns".toList "BBnNZ".toList "-----".toList).2

/-- The five values write_format passes for a format: Type = id, Length =
size + 3, Name = type, Format = the format string, Columns = the column names
joined by ",". -/
def write_format_values (f : MessageFormat) : List Value :=
  [ .int f.id
  , .int (sdlog_message_format_get_size f + 3)
  , .str f.type
  , .str (sdlog_message_format_get_format_string f)
  , .str (sdlog_message_format_get_column_names f [',']) ]

/-- The bytes of the FMT record write_format emits for a format: the values
above encoded against the FMT meta-format. -/
def write_format_bytes (f : MessageFormat) : Except SdErr (List Nat × Nat) :=
  sdlog_message_format_encode_va fmt_message_format (write_format_values f)

/-! Theorems for the claims. -/

/-- C8: for every error code in the ten-element enumeration SUCCESS = 0
through EOF = 9, sdlog_error_to_string returns the message of that specific
code, and it returns the generic FAILURE message only for the FAILURE code
itself or a code outside the enumeration's numeric range. -/
theorem C8_error_to_string :
    (∀ e : SdErr, sdlog_error_to_string e.toCode = e.message) ∧
    (∀ c : Int, c < 0 ∨ 10 ≤ c → sdlog_error_to_string c = SdErr.failure.message) ∧
    (∀ c : Int, 0 ≤ c → c < 10 → c ≠ 1 →
      sdlog_error_to_string c ≠ SdErr.failure.message) := by
  refine ⟨fun e => by cases e <;> rfl, fun c hc => ?_, fun c h0 h10 h1 => ?_⟩
  · rw [sdlog_error_to_string, if_neg (by rcases hc with hc | hc <;> omega)]
    rfl
  · have hcases : c = 0 ∨ c = 2 ∨ c = 3 ∨ c = 4 ∨ c = 5 ∨ c = 6 ∨ c = 7 ∨
        c = 8 ∨ c = 9 := by omega
    rcases hcases with h | h | h | h | h | h | h | h | h <;> subst h <;> decide

/-- Witness for C8 at the codes 9 (EOF), 10 (out of range) and 4 (ELIMIT). -/
theorem C8_error_to_string_witness :
    sdlog_error_to_string SdErr.eof.toCode = SdErr.eof.message ∧
    sdlog_error_to_string 10 = SdErr.failure.message ∧
    sdlog_error_to_string 4 ≠ SdErr.failure.message :=
  ⟨C8_error_to_string.1 SdErr.eof,
   C8_error_to_string.2.1 10 (Or.inr (by decide)),
   C8_error_to_string.2.2 4 (by decide) (by decide) (by decide)⟩

/-- C10: initialising a message format with a type name longer than 4
characters fails with EINVAL and returns the format object exactly as it was
passed in; the length check precedes every write, so nothing is acquired. -/
theorem C10_init_too_long_untouched :
    ∀ (old : MessageFormat) (id : Nat) (type : List Char),
      type.length > SDLOG_MAX_MESSAGE_TYPE_LENGTH →
      sdlog_message_format_init old id type = (.einval, old) := by
  intro old id type h
  rw [sdlog_message_format_init, if_pos h]

/-- Witness for C10 at type name "FOOBAR" (6 characters). -/
theorem C10_init_too_long_untouched_witness :
    sdlog_message_format_init ⟨9, ['A'], 4, []⟩ 5 "FOOBAR".toList =
      (.einval, ⟨9, ['A'], 4, []⟩) :=
  C10_init_too_long_untouched ⟨9, ['A'], 4, []⟩ 5 "FOOBAR".toList (by decide)

/-- C5: at zero columns the bytes_needed computation of
sdlog_message_format_get_column_names underflows in size_t: with the one-byte
separator "," it requests a 0-byte allocation although the function then
writes 1 byte (the terminator of the empty join), and with a two-byte
separator it requests 2^64 - 1 bytes, so allocation fails and NULL is
returned instead of the empty string. -/
theorem C5_zero_columns_bytes_needed_underflow :
    column_names_bytes_needed ⟨7, ['X'], 4, []⟩ [','] = 0 ∧
    (sdlog_message_format_get_column_names ⟨7, ['X'], 4, []⟩ [',']).length + 1 = 1 ∧
    column_names_bytes_needed ⟨7, ['X'], 4, []⟩ [',', ' '] = 18446744073709551615 :=
  ⟨rfl, rfl, rfl⟩

/-- C7: a fresh message format starts with capacity 4; for calls with a valid
type code, add_column fails with ELIMIT exactly when the column count is
already 255 or the count has reached the capacity and the grown capacity
(doubling below 32, +16 afterwards) would exceed 255; every other such call
succeeds, appends the column and updates the capacity by that growth rule. -/
theorem C7_add_column_capacity :
    (∀ (old : MessageFormat) (id : Nat) (t : List Char), t.length ≤ 4 →
      (sdlog_message_format_init old id t).1 = .success ∧
      (sdlog_message_format_init old id t).2.num_alloc_columns = 4) ∧
    (∀ (f : MessageFormat) (name : List Char) (t u : Char),
      get_size_of_column_type t ≠ 0 →
      (((sdlog_message_format_add_column f name t u).1 = .elimit) ↔
        (f.columns.length = 255 ∨
          (f.columns.length = f.num_alloc_columns ∧
           grow_capacity f.num_alloc_columns > 255))) ∧
      ((sdlog_message_format_add_column f name t u).1 ≠ .elimit →
        (sdlog_message_format_add_column f name t u).1 = .success ∧
        (sdlog_message_format_add_column f name t u).2.columns =
          f.columns ++ [⟨name, t, u⟩] ∧
        (sdlog_message_format_add_column f name t u).2.num_alloc_columns =
          (if f.columns.length = f.num_alloc_columns then
            grow_capacity f.num_alloc_columns
          else f.num_alloc_columns))) := by
  constructor
  · intro old id t ht
    rw [sdlog_message_format_init,
      if_neg (by rw [SDLOG_MAX_MESSAGE_TYPE_LENGTH]; omega)]
    exact ⟨rfl, rfl⟩
  · intro f name t u hvalid
    rw [sdlog_message_format_add_column]
    split_ifs with h1 h2 h3 h4 <;> simp_all

/-- Witness for C7: a fresh format gets capacity 4 and accepts a 'B' column. -/
theorem C7_add_column_capacity_witness :
    (sdlog_message_format_init ⟨0, [], 0, []⟩ 1 ['T']).2.num_alloc_columns = 4 ∧
    (sdlog_message_format_add_column ⟨1, ['T'], 4, []⟩ ['x'] 'B' '-').1 = .success := by
  refine ⟨(C7_add_column_capacity.1 ⟨0, [], 0, []⟩ 1 ['T'] (by decide)).2, ?_⟩
  exact ((C7_add_column_capacity.2 ⟨1, ['T'], 4, []⟩ ['x'] 'B' '-'
    (by decide)).2 (by decide)).1

/-- C9: when the FMT record write fails during a write of a format not yet
announced, the pointer is nevertheless recorded in the formats array before
the error is returned, no data record is written, and a subsequent write of
the same pointer emits the data record with no FMT record retry. -/
theorem C9_failed_fmt_still_recorded :
    ∀ (heap : Nat → Nat) (st : WriterState) (p : Nat) (e : SdErr),
      e ≠ .success → st.announced (heap p) ≠ some p →
      (sdlog_writer_write_model heap st p e).1 = e ∧
      (sdlog_writer_write_model heap st p e).2.1.announced (heap p) = some p ∧
      ((sdlog_writer_write_model heap st p e).2.2).count (.dataRec p) = 0 ∧
      (sdlog_writer_write_model heap
          (sdlog_writer_write_model heap st p e).2.1 p .success).1 = .success ∧
      ((sdlog_writer_write_model heap
          (sdlog_writer_write_model heap st p e).2.1 p .success).2.2).count
        (.fmtRec p) = 0 ∧
      ((sdlog_writer_write_model heap
          (sdlog_writer_write_model heap st p e).2.1 p .success).2.2).count
        (.dataRec p) = 1 := by
  intro heap st p e he hann
  by_cases hs : st.hasSession <;>
    simp [sdlog_writer_write_model, ensure_session_started, write_format_if_needed,
      hs, hann, he]

/-- Witness for C9: a fresh writer, pointer 0, with the FMT write failing
with EWRITE. -/
theorem C9_failed_fmt_still_recorded_witness :
    (sdlog_writer_write_model (fun n => n) emptyWriter 0 .ewrite).1 = .ewrite ∧
    (sdlog_writer_write_model (fun n => n) emptyWriter 0 .ewrite).2.1.announced
      ((fun n => n) 0) = some 0 ∧
    ((sdlog_writer_write_model (fun n => n) emptyWriter 0 .ewrite).2.2).count
      (.dataRec 0) = 0 ∧
    (sdlog_writer_write_model (fun n => n)
        (sdlog_writer_write_model (fun n => n) emptyWriter 0 .ewrite).2.1 0
        .success).1 = .success ∧
    ((sdlog_writer_write_model (fun n => n)
        (sdlog_writer_write_model (fun n => n) emptyWriter 0 .ewrite).2.1 0
        .success).2.2).count (.fmtRec 0) = 0 ∧
    ((sdlog_writer_write_model (fun n => n)
        (sdlog_writer_write_model (fun n => n) emptyWriter 0 .ewrite).2.1 0
        .success).2.2).count (.dataRec 0) = 1 :=
  C9_failed_fmt_still_recorded (fun n => n) emptyWriter 0 .ewrite (by decide)
    (by decide)

/-- C4 counterexample: write pointer 0, end the session, write pointer 0
again.  The second session's first write emits no fresh FMT record: the part
of the trace after end_session is just begin_session and the data record. -/
theorem C4_counterexample_no_fresh_fmt :
    (runOps (fun _ => 1) emptyWriter
        [.write 0 .success, .endOp, .write 0 .success]).2.1 =
      [.beginSession, .fmtRec 0, .dataRec 0, .endSession, .beginSession,
       .dataRec 0] ∧
    (((runOps (fun _ => 1) emptyWriter
        [.write 0 .success, .endOp, .write 0 .success]).2.1).drop 4).count
      (.fmtRec 0) = 0 ∧
    (runOps (fun _ => 1) emptyWriter
        [.write 0 .success, .endOp, .write 0 .success]).2.2 =
      [.success, .success, .success] := by
  refine ⟨by decide, by decide, by decide⟩

/-- C4 amended: the formats array is emptied only by sdlog_writer_init;
sdlog_writer_end leaves it intact, so after a session ends, a write of an
already-announced format pointer in the next session returns success without
emitting any fresh FMT record. -/
theorem C4_amended_announced_persists :
    (∀ i, emptyWriter.announced i = none) ∧
    (∀ st : WriterState, (sdlog_writer_end_model st).1.announced = st.announced) ∧
    (∀ (heap : Nat → Nat) (st : WriterState) (p : Nat) (e : SdErr),
      st.announced (heap p) = some p →
      (sdlog_writer_write_model heap (sdlog_writer_end_model st).1 p e).1 =
        .success ∧
      ((sdlog_writer_write_model heap (sdlog_writer_end_model st).1 p
          e).2.2).count (.fmtRec p) = 0) := by
  refine ⟨fun _ => rfl, fun st => ?_, fun heap st p e h => ?_⟩
  · rw [sdlog_writer_end_model]
    split_ifs <;> rfl
  · by_cases hs : st.hasSession <;>
      simp [sdlog_writer_end_model, sdlog_writer_write_model,
        ensure_session_started, write_format_if_needed, hs, h]

/-- Witness for C4's amended statement: a writer that has announced pointer 5
under id 3 keeps that announcement across sdlog_writer_end. -/
theorem C4_amended_announced_persists_witness :
    (sdlog_writer_write_model (fun _ => 3)
        (sdlog_writer_end_model
          ⟨true, fun i => if i = 3 then some 5 else none⟩).1 5 .success).1 =
      .success ∧
    ((sdlog_writer_write_model (fun _ => 3)
        (sdlog_writer_end_model
          ⟨true, fun i => if i = 3 then some 5 else none⟩).1 5
        .success).2.2).count (.fmtRec 5) = 0 :=
  C4_amended_announced_persists.2.2 (fun _ => 3)
    ⟨true, fun i => if i = 3 then some 5 else none⟩ 5 .success (by decide)

/-- C3 counterexample: two distinct pointers 0 and 1 that share the message
id 7, written in the order 0, 1, 0.  All three writes succeed, yet the trace
holds two FMT records for pointer 0, not exactly one. -/
theorem C3_counterexample_same_id :
    (runOps (fun _ => 7) emptyWriter
        [.write 0 .success, .write 1 .success, .write 0 .success]).2.2 =
      [.success, .success, .success] ∧
    ((runOps (fun _ => 7) emptyWriter
        [.write 0 .success, .write 1 .success, .write 0 .success]).2.1).count
      (.fmtRec 0) = 2 ∧
    (2 : Nat) ≠ 1 :=
  ⟨by decide, by decide, by decide⟩

/-- C6 counterexample: add_columns with names "a" and types "BB" succeeds,
but the second column is named "" rather than reusing the final piece "a":
after the names string is exhausted, the scanner stays on the terminator. -/
theorem C6_counterexample_names_not_reused :
    (sdlog_message_format_add_columns ⟨1, ['T'], 4, []⟩ ['a'] ['B', 'B'] []).1 =
      .success ∧
    ((sdlog_message_format_add_columns ⟨1, ['T'], 4, []⟩ ['a'] ['B', 'B']
        []).2.columns.map (fun c => c.name)) = [['a'], []] ∧
    ([[('a' : Char)], ([] : List Char)] : List (List Char)) ≠ [['a'], ['a']] :=
  ⟨by decide, by decide, by decide⟩

/-- The fixed-width string field always has exactly its field width. -/
lemma strField_length (width : Nat) (s : List Char) :
    (strField width s).length = width := by
  simp [strField]
  omega

/-- Every chunk the encoder switch produces has exactly the wire size that
get_size_of_column_type assigns to the column's type code. -/
lemma encode_column_length {t : Char} {v : Value} {b : List Nat}
    (h : encode_column t v = .ok b) : b.length = get_size_of_column_type t := by
  rw [encode_column] at h
  by_cases h1 : t = 'b' ∨ t = 'B' ∨ t = 'M'
  · rw [if_pos h1] at h
    cases v <;> cases h
    rcases h1 with rfl | rfl | rfl <;> rfl
  rw [if_neg h1] at h
  by_cases h2 : t = 'c' ∨ t = 'C' ∨ t = 'h' ∨ t = 'H'
  · rw [if_pos h2] at h
    cases v <;> cases h
    rcases h2 with rfl | rfl | rfl | rfl <;> rfl
  rw [if_neg h2] at h
  by_cases h3 : t = 'e' ∨ t = 'E' ∨ t = 'L' ∨ t = 'i' ∨ t = 'I'
  · rw [if_pos h3] at h
    cases v <;> cases h
    rcases h3 with rfl | rfl | rfl | rfl | rfl <;> rfl
  rw [if_neg h3] at h
  by_cases h4 : t = 'q' ∨ t = 'Q'
  · rw [if_pos h4] at h
    cases v <;> cases h
    rcases h4 with rfl | rfl <;> rfl
  rw [if_neg h4] at h
  by_cases h5 : t = 'f'
  · rw [if_pos h5] at h
    cases v <;> cases h
    subst h5; rfl
  rw [if_neg h5] at h
  by_cases h6 : t = 'd'
  · rw [if_pos h6] at h
    cases v <;> cases h
    subst h6; rfl
  rw [if_neg h6] at h
  by_cases h7 : t = 'n' ∨ t = 'N' ∨ t = 'Z'
  · rw [if_pos h7] at h
    cases v <;> cases h
    rw [strField_length]
    rcases h7 with rfl | rfl | rfl <;> rfl
  rw [if_neg h7] at h
  by_cases h8 : t = 'a'
  · rw [if_pos h8] at h
    cases h
  · rw [if_neg h8] at h
    cases h

/-- The chunk sizes of a successful encode are the column wire sizes. -/
lemma encode_columns_sizes {cols : List ColumnFormat} {vs : List Value}
    {chunks : List (List Nat)} (h : encode_columns cols vs = .ok chunks) :
    chunks.map List.length = cols.map (fun c => get_size_of_column_type c.type) := by
  induction cols generalizing vs chunks with
  | nil =>
    cases vs <;> rw [encode_columns] at h <;>
      simp only [Except.ok.injEq] at h <;> subst h <;> rfl
  | cons c cs ih =>
    cases vs with
    | nil => rw [encode_columns] at h; cases h
    | cons v vs' =>
      rw [encode_columns] at h
      cases hc : encode_column c.type v with
      | error e => rw [hc] at h; cases h
      | ok b =>
        rw [hc] at h
        cases hr : encode_columns cs vs' with
        | error e => rw [hr] at h; cases h
        | ok rest =>
          rw [hr] at h
          cases h
          simp [encode_column_length hc, ih hr]

/-- C1: a successful encode of a format whose column types are all known,
non-'a' codes produces written = 3 + the sum of the column wire sizes, and
the buffer holds 0xA3, 0x95 and the format id followed by one chunk per
column in order, each chunk as wide as its column's wire size. -/
theorem C1_encode_layout :
    ∀ (f : MessageFormat) (vs : List Value) (bytes : List Nat) (written : Nat),
      (∀ c ∈ f.columns, get_size_of_column_type c.type ≠ 0 ∧ c.type ≠ 'a') →
      sdlog_message_format_encode_va f vs = .ok (bytes, written) →
      written = 3 + (f.columns.map (fun c => get_size_of_column_type c.type)).sum ∧
      bytes.length = written ∧
      bytes.take 3 = [0xA3, 0x95, f.id % 256] ∧
      ∃ chunks, encode_columns f.columns vs = .ok chunks ∧
        bytes = 0xA3 :: 0x95 :: f.id % 256 :: chunks.flatten ∧
        chunks.map List.length =
          f.columns.map (fun c => get_size_of_column_type c.type) := by
  intro f vs bytes written hknown h
  rw [sdlog_message_format_encode_va] at h
  cases hc : encode_columns f.columns vs with
  | error e => rw [hc] at h; cases h
  | ok chunks =>
    rw [hc] at h
    simp only [Except.ok.injEq, Prod.mk.injEq] at h
    obtain ⟨hb, hw⟩ := h
    have hsizes := encode_columns_sizes hc
    have hflat : chunks.flatten.length =
        (f.columns.map (fun c => get_size_of_column_type c.type)).sum := by
      rw [List.length_flatten, hsizes]
    subst hb hw
    refine ⟨?_, rfl, rfl, chunks, rfl, rfl, hsizes⟩
    simp only [List.length_cons, hflat]
    omega

/-- Witness for C1: a two-column format (types B and h) at values 5 and 258. -/
theorem C1_encode_layout_witness :
    sdlog_message_format_encode_va ⟨1, ['T'], 4, [⟨['x'], 'B', '-'⟩,
        ⟨['y'], 'h', '-'⟩]⟩ [.int 5, .int 258] =
      .ok ([163, 149, 1, 5, 2, 1], 6) ∧
    (6 : Nat) = 3 + (([⟨['x'], 'B', '-'⟩, ⟨['y'], 'h', '-'⟩] :
        List ColumnFormat).map (fun c => get_size_of_column_type c.type)).sum ∧
    ([163, 149, 1, 5, 2, 1] : List Nat).take 3 = [0xA3, 0x95, 1 % 256] := by
  have h := C1_encode_layout ⟨1, ['T'], 4, [⟨['x'], 'B', '-'⟩, ⟨['y'], 'h', '-'⟩]⟩
    [.int 5, .int 258] [163, 149, 1, 5, 2, 1] 6 (by decide) (by rfl)
  exact ⟨by rfl, h.1, h.2.2.1⟩

/-- The FMT meta-format the writer builds in sdlog_writer_init, computed out:
id 128, type "FMT", five columns of types B, B, n, N, Z. -/
lemma fmt_message_format_eq :
    fmt_message_format =
      ⟨128, ['F', 'M', 'T'], 8,
       [⟨['T', 'y', 'p', 'e'], 'B', '-'⟩,
        ⟨['L', 'e', 'n', 'g', 't', 'h'], 'B', '-'⟩,
        ⟨['N', 'a', 'm', 'e'], 'n', '-'⟩,
        ⟨['F', 'o', 'r', 'm', 'a', 't'], 'N', '-'⟩,
        ⟨['C', 'o', 'l', 'u', 'm', 'n', 's'], 'Z', '-'⟩]⟩ := by decide

/-- Encoding the write_format values against the FMT meta-format, chunk by
chunk, by computation. -/
lemma write_format_encode_columns (f : MessageFormat) :
    encode_columns fmt_message_format.columns (write_format_values f) =
      .ok [[((f.id : Int) % 256).toNat],
           [(((sdlog_message_format_get_size f + 3 : Nat) : Int) % 256).toNat],
           strField 4 f.type,
           strField 16 (sdlog_message_format_get_format_string f),
           strField 64 (sdlog_message_format_get_column_names f [','])] := rfl

/-- C2: for every message format F, write_format encodes, against the
built-in FMT meta-format, the values Type = F.id, Length = F.size() + 3,
Name = F.type, Format = F's format string and Columns = F's column names
joined by ","; the record is 89 bytes: sync bytes, id 128, then the Type and
Length bytes and the three fixed-width string fields. -/
theorem C2_fmt_record_layout :
    ∀ f : MessageFormat, ∃ bytes : List Nat,
      write_format_bytes f = .ok (bytes, 89) ∧
      bytes.length = 89 ∧
      bytes.take 3 = [0xA3, 0x95, 128] ∧
      bytes[3]? = some (f.id % 256) ∧
      bytes[4]? = some ((sdlog_message_format_get_size f + 3) % 256) ∧
      (bytes.drop 5).take 4 = strField 4 f.type ∧
      ((bytes.drop 9).take 16 =
        strField 16 (sdlog_message_format_get_format_string f)) ∧
      (bytes.drop 25 =
        strField 64 (sdlog_message_format_get_column_names f [','])) ∧
      write_format_values f =
        [.int f.id, .int (sdlog_message_format_get_size f + 3), .str f.type,
         .str (sdlog_message_format_get_format_string f),
         .str (sdlog_message_format_get_column_names f [','])] := by
  intro f
  have hA : (((f.id : Int)) % 256).toNat = f.id % 256 := by omega
  have hB : ((((sdlog_message_format_get_size f + 3 : Nat) : Int)) % 256).toNat =
      (sdlog_message_format_get_size f + 3) % 256 := by omega
  have h4 : (strField 4 f.type).length = 4 := strField_length 4 f.type
  have h16 : (strField 16 (sdlog_message_format_get_format_string f)).length = 16 :=
    strField_length _ _
  have h64 : (strField 64 (sdlog_message_format_get_column_names f [','])).length =
      64 := strField_length _ _
  refine ⟨163 :: 149 :: 128 :: (f.id % 256) ::
      ((sdlog_message_format_get_size f + 3) % 256) ::
      (strField 4 f.type ++ (strField 16 (sdlog_message_format_get_format_string f) ++
       strField 64 (sdlog_message_format_get_column_names f [',']))),
    ?_, ?_, ?_, ?_, ?_, ?_, ?_, ?_, rfl⟩
  · have hraw : write_format_bytes f =
        (encode_columns fmt_message_format.columns (write_format_values f)).map
          (fun chunks =>
            (0xA3 :: 0x95 :: fmt_message_format.id % 256 :: chunks.flatten,
             (0xA3 :: 0x95 :: fmt_message_format.id % 256 :: chunks.flatten).length)) := by
      rw [write_format_bytes, sdlog_message_format_encode_va]
      cases encode_columns fmt_message_format.columns (write_format_values f) <;> rfl
    rw [hraw, write_format_encode_columns]
    simp only [Except.map, List.flatten, List.append_nil, hA, hB]
    rw [fmt_message_format_eq]
    simp only [List.length_cons, List.length_append, h4, h16, h64]
    rfl
  · simp only [List.length_cons, List.length_append, h4, h16, h64]
  · rfl
  · simp
  · simp
  · show (strField 4 f.type ++ (strField 16 (sdlog_message_format_get_format_string f) ++
       strField 64 (sdlog_message_format_get_column_names f [',']))).take 4 = _
    exact List.take_left' h4
  · show ((strField 4 f.type ++ (strField 16 (sdlog_message_format_get_format_string f) ++
       strField 64 (sdlog_message_format_get_column_names f [',']))).drop 4).take 16 = _
    rw [List.drop_left' h4]
    exact List.take_left' h16
  · show (strField 4 f.type ++ (strField 16 (sdlog_message_format_get_format_string f) ++
       strField 64 (sdlog_message_format_get_column_names f [',']))).drop 20 = _
    rw [← List.append_assoc]
    exact List.drop_left' (by rw [List.length_append, h4, h16])

/-! Amended description of sdlog_message_format_add_columns. -/

/-- Claim-side split of a name list at commas ("a,b" gives ["a", "b"], the
empty string gives [""]). -/
def splitAtCommas : List Char → List (List Char)
  | [] => [[]]
  | c :: rest =>
    if c = ',' then [] :: splitAtCommas rest
    else
      match splitAtCommas rest with
      | [] => [[c]]
      | g :: gs => (c :: g) :: gs

/-- The columns a successful add_columns call appends: one per character of
types, named by the next comma-separated piece of names (staying empty once
names is exhausted), unit from units while it lasts and '-' afterwards. -/
def expected_columns : List Char → List Char → List Char → List ColumnFormat
  | _, [], _ => []
  | names, t :: ts, units =>
    ⟨names.takeWhile (fun c => c ≠ ','), t, units.headD '-'⟩ ::
      expected_columns (nameAfterComma names) ts units.tail

/-- A successful add_column appends exactly the one new column. -/
lemma add_column_success_columns {f g : MessageFormat} {name : List Char}
    {t u : Char} (h : sdlog_message_format_add_column f name t u = (.success, g)) :
    g.columns = f.columns ++ [⟨name, t, u⟩] := by
  rw [sdlog_message_format_add_column] at h
  split_ifs at h <;> cases h <;> rfl

/-- A successful run of the add_columns loop appends the expected columns. -/
lemma add_columns_go_success {types : List Char} :
    ∀ {f f' : MessageFormat} {names units : List Char},
      add_columns_go f names types units = (.success, f') →
      f'.columns = f.columns ++ expected_columns names types units := by
  induction types with
  | nil =>
    intro f f' names units h
    rw [add_columns_go] at h
    cases h
    simp [expected_columns]
  | cons t ts ih =>
    intro f f' names units h
    rw [add_columns_go] at h
    cases hstep : sdlog_message_format_add_column f
        (names.takeWhile (fun c => c ≠ ',')) t (units.headD '-') with
    | mk e g =>
      rw [hstep] at h
      cases e with
      | success =>
        have hrec := ih h
        rw [hrec, add_column_success_columns hstep, expected_columns]
        simp
      | failure => cases h
      | enomem => cases h
      | einval => cases h
      | elimit => cases h
      | eread => cases h
      | ewrite => cases h
      | eio => cases h
      | unimplemented => cases h
      | eof => cases h

/-- The loop appends one column per character of types. -/
lemma expected_columns_length (names types units : List Char) :
    (expected_columns names types units).length = types.length := by
  induction types generalizing names units with
  | nil => rfl
  | cons t ts ih => rw [expected_columns]; simp [ih]

/-- Column i of the batch has type types[i]. -/
lemma expected_columns_types (names types units : List Char) :
    (expected_columns names types units).map (fun c => c.type) = types := by
  induction types generalizing names units with
  | nil => rfl
  | cons t ts ih => rw [expected_columns]; simp [ih]

/-- Column i of the batch has unit units[i] while units lasts, '-' after. -/
lemma expected_columns_units (names types units : List Char) :
    (expected_columns names types units).map (fun c => c.unit) =
      units.take types.length ++
        List.replicate (types.length - units.length) '-' := by
  induction types generalizing names units with
  | nil => simp [expected_columns]
  | cons t ts ih =>
    cases units with
    | nil => rw [expected_columns]; simp [ih, List.replicate_succ]
    | cons u us => rw [expected_columns]; simp [ih]

/-- Structure of splitAtCommas: the piece before the first comma, then the
split of what follows it (nothing when names held no comma). -/
lemma splitAtCommas_eq (names : List Char) :
    splitAtCommas names =
      names.takeWhile (fun c => c ≠ ',') ::
        (if names.dropWhile (fun c => c ≠ ',') = [] then []
         else splitAtCommas (nameAfterComma names)) := by
  induction names with
  | nil => rfl
  | cons c rest ih =>
    by_cases hc : c = ','
    · subst hc
      rw [splitAtCommas]
      simp [List.takeWhile, List.dropWhile, nameAfterComma]
    · rw [splitAtCommas, if_neg hc, ih]
      have ht : (c :: rest).takeWhile (fun x => x ≠ ',') =
          c :: rest.takeWhile (fun x => x ≠ ',') := by
        simp [List.takeWhile, hc]
      have hd : (c :: rest).dropWhile (fun x => x ≠ ',') =
          rest.dropWhile (fun x => x ≠ ',') := by
        simp [List.dropWhile, hc]
      have hn : nameAfterComma (c :: rest) = nameAfterComma rest := by
        rw [nameAfterComma, nameAfterComma, hd]
      rw [ht, hd, hn]

/-- Once names is exhausted every remaining column is named "". -/
lemma expected_columns_names_nil (types units : List Char) :
    (expected_columns [] types units).map (fun c => c.name) =
      List.replicate types.length [] := by
  induction types generalizing units with
  | nil => rfl
  | cons t ts ih =>
    rw [expected_columns]
    simp [nameAfterComma, ih, List.replicate_succ]

/-- The names of the batch: the comma-separated pieces of names in order,
padded with empty names once the pieces run out. -/
lemma expected_columns_names (names types units : List Char) :
    (expected_columns names types units).map (fun c => c.name) =
      (splitAtCommas names ++
        List.replicate (types.length - (splitAtCommas names).length) []).take
        types.length := by
  induction types generalizing names units with
  | nil => rfl
  | cons t ts ih =>
    rw [expected_columns, splitAtCommas_eq names]
    by_cases hdrop : names.dropWhile (fun c => c ≠ ',') = []
    · rw [if_pos hdrop]
      have hafter : nameAfterComma names = [] := by
        rw [nameAfterComma, hdrop]
      simp only [List.map_cons, hafter, expected_columns_names_nil,
        List.singleton_append, List.length_cons, List.length_nil]
      simp [List.replicate_succ]
    · rw [if_neg hdrop]
      simp only [List.map_cons, ih (nameAfterComma names), List.cons_append,
        List.length_cons, List.take_succ_cons, List.cons.injEq, true_and]
      have : ts.length + 1 - ((splitAtCommas (nameAfterComma names)).length + 1) =
          ts.length - (splitAtCommas (nameAfterComma names)).length := by omega
      rw [this]

/-- C6 amended: a successful add_columns appends exactly len(types) columns;
column i has type types[i] and unit units[i] (or '-' past the end of units);
the names are the comma-separated pieces of names in order, and every column
past the last piece is named "" (the scanner stays on the terminator once
names is exhausted; the final piece is not reused). -/
theorem C6_amended_add_columns :
    ∀ (f : MessageFormat) (names types units : List Char),
      (sdlog_message_format_add_columns f names types units).1 = .success →
      (sdlog_message_format_add_columns f names types units).2.columns =
        f.columns ++ expected_columns names types units ∧
      (expected_columns names types units).length = types.length ∧
      (expected_columns names types units).map (fun c => c.type) = types ∧
      (expected_columns names types units).map (fun c => c.unit) =
        units.take types.length ++
          List.replicate (types.length - units.length) '-' ∧
      (expected_columns names types units).map (fun c => c.name) =
        (splitAtCommas names ++
          List.replicate (types.length - (splitAtCommas names).length) []).take
          types.length := by
  intro f names types units h
  rw [sdlog_message_format_add_columns] at h ⊢
  by_cases hlim : 255 - f.columns.length < types.length
  · rw [if_pos hlim] at h
    exact SdErr.noConfusion h
  · rw [if_neg hlim] at h ⊢
    refine ⟨?_, expected_columns_length _ _ _, expected_columns_types _ _ _,
      expected_columns_units _ _ _, expected_columns_names _ _ _⟩
    have hpair : add_columns_go f names types units =
        (.success, (add_columns_go f names types units).2) := by
      rw [← h]
    exact add_columns_go_success hpair

/-- Witness for C6's amended statement: names "a,b", types "BBB", units "z". -/
theorem C6_amended_add_columns_witness :
    (sdlog_message_format_add_columns ⟨1, ['T'], 4, []⟩ "a,b".toList
        "BBB".toList ['z']).2.columns =
      [] ++ expected_columns "a,b".toList "BBB".toList ['z'] ∧
    (expected_columns "a,b".toList "BBB".toList ['z']).map (fun c => c.name) =
      (splitAtCommas "a,b".toList ++
        List.replicate (("BBB".toList).length -
          (splitAtCommas "a,b".toList).length) []).take ("BBB".toList).length := by
  have h := C6_amended_add_columns ⟨1, ['T'], 4, []⟩ "a,b".toList "BBB".toList
    ['z'] (by decide)
  exact ⟨h.1, h.2.2.2.2⟩

/-! Amended ordering property of the writer (C3). -/

/-- A write of an already-announced pointer: session ensured, no FMT record,
one data record, announcements unchanged. -/
lemma write_model_seen (heap : Nat → Nat) (st : WriterState) (p : Nat)
    (h : st.announced (heap p) = some p) :
    sdlog_writer_write_model heap st p .success =
      (.success, ⟨true, st.announced⟩,
       (if st.hasSession then ([] : List WEvent) else [.beginSession]) ++
         [.dataRec p]) := by
  obtain ⟨hs, ann⟩ := st
  cases hs <;>
    simp_all [sdlog_writer_write_model, ensure_session_started,
      write_format_if_needed]

/-- A write of a pointer not currently announced under its id: session
ensured, FMT record then data record, and the pointer becomes announced. -/
lemma write_model_new (heap : Nat → Nat) (st : WriterState) (p : Nat)
    (h : ¬ st.announced (heap p) = some p) :
    sdlog_writer_write_model heap st p .success =
      (.success,
       ⟨true, fun i => if i = heap p then some p else st.announced i⟩,
       (if st.hasSession then ([] : List WEvent) else [.beginSession]) ++
         [.fmtRec p, .dataRec p]) := by
  obtain ⟨hs, ann⟩ := st
  cases hs <;>
    simp_all [sdlog_writer_write_model, ensure_session_started,
      write_format_if_needed]

/-- Shifting an FMT-immediately-before-first-data index past a prefix that
holds no data record for the pointer. -/
lemma idx_shift {pre rest : List WEvent} {q : Nat} {i : Nat}
    (hpre : ∀ e ∈ pre, e ≠ WEvent.dataRec q)
    (h1 : rest[i]? = some (.fmtRec q)) (h2 : rest[i + 1]? = some (.dataRec q))
    (h3 : ∀ j, j ≤ i → rest[j]? ≠ some (.dataRec q)) :
    ∃ k, (pre ++ rest)[k]? = some (.fmtRec q) ∧
      (pre ++ rest)[k + 1]? = some (.dataRec q) ∧
      ∀ j, j ≤ k → (pre ++ rest)[j]? ≠ some (.dataRec q) := by
  refine ⟨pre.length + i, ?_, ?_, ?_⟩
  · rw [List.getElem?_append_right (by omega)]
    have hi : pre.length + i - pre.length = i := by omega
    rw [hi]; exact h1
  · rw [List.getElem?_append_right (by omega)]
    have hi : pre.length + i + 1 - pre.length = i + 1 := by omega
    rw [hi]; exact h2
  · intro j hj
    by_cases hjl : j < pre.length
    · rw [List.getElem?_append_left hjl]
      intro hcon
      exact hpre _ (List.getElem?_mem hcon) rfl
    · rw [List.getElem?_append_right (by omega)]
      exact h3 (j - pre.length) (by omega)

/-- Invariant run of successful writes: the data records are the written
pointers in order; each pointer not announced at the start gets exactly one
FMT record, placed immediately before its first data record; pointers with a
standing announcement get none.  Requires distinct pointers to carry distinct
ids and every announcement met along the trace to be the pointer's own. -/
lemma runW_spec (heap : Nat → Nat) :
    ∀ (ps : List Nat) (st : WriterState),
      distinctIds heap ps →
      (∀ q ∈ ps, st.announced (heap q) = none ∨ st.announced (heap q) = some q) →
      dataOf (runW heap st ps).2 = ps ∧
      (∀ p, ((runW heap st ps).2).count (.fmtRec p) =
        if p ∈ ps ∧ st.announced (heap p) ≠ some p then 1 else 0) ∧
      (∀ p ∈ ps, st.announced (heap p) ≠ some p →
        ∃ k, ((runW heap st ps).2)[k]? = some (.fmtRec p) ∧
          ((runW heap st ps).2)[k + 1]? = some (.dataRec p) ∧
          ∀ j, j ≤ k → ((runW heap st ps).2)[j]? ≠ some (.dataRec p)) := by
  intro ps
  induction ps with
  | nil =>
    intro st _ _
    exact ⟨rfl, fun p => by simp [runW, dataOf],
      fun p hp => absurd hp (List.not_mem_nil p)⟩
  | cons p ps ih =>
    intro st hdist hpre
    have hdist' : distinctIds heap ps := fun a ha b hb =>
      hdist a (List.mem_cons_of_mem p ha) b (List.mem_cons_of_mem p hb)
    have hheadmem : p ∈ p :: ps := List.mem_cons_self p ps
    by_cases hseen : st.announced (heap p) = some p
    · -- already announced: only a data record is appended
      have hstep := write_model_seen heap st p hseen
      have hrun : (runW heap st (p :: ps)).2 =
          ((if st.hasSession then ([] : List WEvent) else [.beginSession]) ++
            [.dataRec p]) ++ (runW heap ⟨true, st.announced⟩ ps).2 := by
        rw [runW, hstep]
      have hpre' : ∀ q ∈ ps, (⟨true, st.announced⟩ : WriterState).announced
          (heap q) = none ∨ (⟨true, st.announced⟩ : WriterState).announced
          (heap q) = some q := fun q hq => hpre q (List.mem_cons_of_mem p hq)
      obtain ⟨ihData, ihCount, ihIdx⟩ := ih ⟨true, st.announced⟩ hdist' hpre'
      refine ⟨?_, ?_, ?_⟩
      · rw [hrun]
        by_cases hs : st.hasSession <;> simp [hs, dataOf] at ihData ⊢ <;>
          exact ihData
      · intro q
        rw [hrun, List.count_append]
        have hc := ihCount q
        by_cases hq : q = p
        · subst hq
          rw [hc]
          by_cases hs : st.hasSession <;> simp [hs, hseen]
        · rw [hc]
          by_cases hs : st.hasSession <;>
            simp [hs, hq, List.mem_cons, List.count_cons]
      · intro q hq hqann
        have hq' : q ∈ ps := by
          rcases List.mem_cons.mp hq with rfl | h
          · exact absurd hseen hqann
          · exact h
        have hqp : q ≠ p := by
          rintro rfl; exact hqann hseen
        obtain ⟨k, h1, h2, h3⟩ := ihIdx q hq' hqann
        rw [hrun]
        refine idx_shift ?_ h1 h2 h3
        intro e he
        have hpq : ¬ p = q := fun hc => hqp hc.symm
        by_cases hs : st.hasSession <;> simp [hs] at he
        · subst he; simp [hpq]
        · rcases he with rfl | rfl
          · simp
          · simp [hpq]
    · -- new pointer: FMT record then data record, announcement recorded
      have hstep := write_model_new heap st p hseen
      have hrun : (runW heap st (p :: ps)).2 =
          ((if st.hasSession then ([] : List WEvent) else [.beginSession]) ++
            [.fmtRec p, .dataRec p]) ++
            (runW heap ⟨true, fun i => if i = heap p then some p
              else st.announced i⟩ ps).2 := by
        rw [runW, hstep]
      have hpre' : ∀ q ∈ ps,
          (⟨true, fun i => if i = heap p then some p else st.announced i⟩ :
            WriterState).announced (heap q) = none ∨
          (⟨true, fun i => if i = heap p then some p else st.announced i⟩ :
            WriterState).announced (heap q) = some q := by
        intro q hq
        by_cases hiq : heap q = heap p
        · have : q = p := hdist q (List.mem_cons_of_mem p hq) p hheadmem hiq
          subst this
          right; simp [hiq]
        · have h2 : ((⟨true, fun i => if i = heap p then some p
              else st.announced i⟩ : WriterState).announced) (heap q) =
              st.announced (heap q) := by simp [hiq]
          rw [h2]
          exact hpre q (List.mem_cons_of_mem p hq)
      obtain ⟨ihData, ihCount, ihIdx⟩ :=
        ih ⟨true, fun i => if i = heap p then some p else st.announced i⟩
          hdist' hpre'
      refine ⟨?_, ?_, ?_⟩
      · rw [hrun]
        by_cases hs : st.hasSession <;> simp [hs, dataOf] at ihData ⊢ <;>
          exact ihData
      · intro q
        rw [hrun, List.count_append]
        have hc := ihCount q
        by_cases hq : q = p
        · subst hq
          rw [hc]
          have : (fun i => if i = heap q then some q else st.announced i)
              (heap q) = some q := by simp
          by_cases hs : st.hasSession <;>
            simp [hs, this, hseen, List.count_cons]
        · rw [hc]
          by_cases hqps : q ∈ ps
          · have hiq : heap q ≠ heap p := by
              intro hcon
              exact hq (hdist q (List.mem_cons_of_mem p hqps) p hheadmem hcon)
            have : (fun i => if i = heap p then some p else st.announced i)
                (heap q) = st.announced (heap q) := by simp [hiq]
            by_cases hs : st.hasSession <;>
              simp [hs, hq, hqps, this, List.mem_cons, List.count_cons]
          · by_cases hs : st.hasSession <;>
              simp [hs, hq, hqps, List.mem_cons, List.count_cons]
      · intro q hq hqann
        by_cases hqp : q = p
        · -- q = p: its FMT record is right here in the prefix
          subst hqp
          rw [hrun]
          by_cases hs : st.hasSession
          · refine ⟨0, by simp [hs], by simp [hs], ?_⟩
            intro j hj
            interval_cases j
            simp [hs]
          · refine ⟨1, by simp [hs], by simp [hs], ?_⟩
            intro j hj
            interval_cases j <;> simp [hs]
        · have hq' : q ∈ ps := (List.mem_cons.mp hq).resolve_left hqp
          have hiq : heap q ≠ heap p := by
            intro hcon
            exact hqp (hdist q hq p hheadmem hcon)
          have hann' : (⟨true, fun i => if i = heap p then some p
              else st.announced i⟩ : WriterState).announced (heap q) ≠ some q := by
            simpa [WriterState.announced, hiq] using hqann
          obtain ⟨k, h1, h2, h3⟩ := ihIdx q hq' hann'
          rw [hrun]
          refine idx_shift ?_ h1 h2 h3
          intro e he
          have hpq : ¬ p = q := fun hc => hqp hc.symm
          by_cases hs : st.hasSession <;> simp [hs] at he
          · rcases he with rfl | rfl
            · simp
            · simp [hpq]
          · rcases he with rfl | rfl | rfl
            · simp
            · simp
            · simp [hpq]

/-- C3 amended: for every sequence of successful writes on a fresh writer
using format pointers whose distinct pointers carry pairwise distinct message
ids, the stream holds the data records in write order, exactly one FMT record
per pointer used, and that FMT record sits immediately before the pointer's
first data record.  (With two distinct pointers sharing one id, the source
re-announces on each alternation, so the distinct-ids hypothesis is
necessary.) -/
theorem C3_amended_fmt_before_first_data :
    ∀ (heap : Nat → Nat) (ps : List Nat),
      distinctIds heap ps →
      dataOf (runW heap emptyWriter ps).2 = ps ∧
      (∀ p ∈ ps, ((runW heap emptyWriter ps).2).count (.fmtRec p) = 1) ∧
      (∀ p ∈ ps, ∃ k,
        ((runW heap emptyWriter ps).2)[k]? = some (.fmtRec p) ∧
        ((runW heap emptyWriter ps).2)[k + 1]? = some (.dataRec p) ∧
        ∀ j, j ≤ k →
          ((runW heap emptyWriter ps).2)[j]? ≠ some (.dataRec p)) := by
  intro heap ps hdist
  have hpre : ∀ q ∈ ps, emptyWriter.announced (heap q) = none ∨
      emptyWriter.announced (heap q) = some q := fun q _ => Or.inl rfl
  obtain ⟨h1, h2, h3⟩ := runW_spec heap ps emptyWriter hdist hpre
  refine ⟨h1, fun p hp => ?_, fun p hp => h3 p hp (by simp [emptyWriter])⟩
  rw [h2 p]
  simp [hp, emptyWriter]

/-- Witness for C3's amended statement: pointers 0, 1, 0 with ids 0, 1. -/
theorem C3_amended_fmt_before_first_data_witness :
    dataOf (runW (fun n => n) emptyWriter [0, 1, 0]).2 = [0, 1, 0] ∧
    ((runW (fun n => n) emptyWriter [0, 1, 0]).2).count (.fmtRec 0) = 1 :=
  ⟨(C3_amended_fmt_before_first_data (fun n => n) [0, 1, 0] (by decide)).1,
   (C3_amended_fmt_before_first_data (fun n => n) [0, 1, 0] (by decide)).2.1 0
     (by decide)⟩

end Sdlog
